import Mathlib

/-!
Verification development for the PDF/Excel report-extraction application
(single source file, a Streamlit app).  The code is shallowly embedded:
spreadsheets become grids of optional string cells (a missing cell models
a NaN cell in the pandas data frame), HTTP fetches become oracles that
return an optional response, and the remote AI service becomes an opaque
oracle.  The UI framework, the Excel and HTTP libraries, and the remote
model are external collaborators; their observable behaviour at the call
sites used by the program is modelled directly.
-/

namespace PdfDl

/-! ## String helpers (kernel-evaluable models of the Python string operations) -/

/-- Decides whether the first list occurs as a contiguous segment of the second. -/
def listIsInfixB (needle : List Char) : List Char → Bool
  | [] => needle.isPrefixOf []
  | c :: rest => needle.isPrefixOf (c :: rest) || listIsInfixB needle rest

/-- Models the Python substring test (needle in hay). -/
def substrB (needle hay : String) : Bool :=
  listIsInfixB needle.data hay.data

/-- Models str.replace of a single-character pattern with the empty string:
removal of every occurrence of the character. -/
def removeChar (ch : Char) (s : String) : String :=
  ⟨s.data.filter (fun c => !(c == ch))⟩

/-- Models str.strip: removal of leading and trailing whitespace. -/
def pyStrip (s : String) : String :=
  ⟨((s.data.dropWhile Char.isWhitespace).reverse.dropWhile Char.isWhitespace).reverse⟩

/-- Models str.lower on the ASCII letters appearing in hrefs and extensions. -/
def asciiLower (s : String) : String :=
  ⟨s.data.map Char.toLower⟩

/-- Decides whether the string ends with the given suffix. -/
def endsWithB (suffix s : String) : Bool :=
  suffix.data.isSuffixOf s.data

/-- Decides whether the string starts with the given prefix. -/
def startsWithB (pre s : String) : Bool :=
  pre.data.isPrefixOf s.data

/-- Numeric value of a list of decimal digit characters. -/
def natOfDigits (l : List Char) : Nat :=
  l.foldl (fun n c => 10 * n + (c.toNat - 48)) 0

/-- Consumes one optional leading sign, returning the sign and the rest. -/
def parseSign : List Char → Int × List Char
  | '+' :: rest => (1, rest)
  | '-' :: rest => (-1, rest)
  | l => (1, l)

/-- Parses the signed digit string following the exponent letter. -/
def parseExp (l : List Char) : Option Int :=
  let p := parseSign l
  if p.2 = [] then none
  else if p.2.all Char.isDigit then some (p.1 * (natOfDigits p.2 : Int))
  else none

/-- Modelled from the source: the Python float conversion applied by the
table locator, on decimal literals with optional sign, decimal point and
exponent.  The value is represented exactly as a rational number; the
special spellings inf, infinity, nan and digit underscores accepted by
Python are outside the model (no claim exercises them). -/
def pyFloat (s : String) : Option ℚ :=
  let p := parseSign s.data
  let m := p.1
  let body := p.2
  let sp := body.span (fun c => !(c == 'e' || c == 'E'))
  let expo : Option Int :=
    match sp.2 with
    | [] => some 0
    | _ :: es => parseExp es
  match expo with
  | none => none
  | some e =>
    let ipr := sp.1.span (fun c => !(c == '.'))
    let frac : Option (List Char) :=
      match ipr.2 with
      | [] => some []
      | _ :: fs => if fs.all Char.isDigit then some fs else none
    match frac with
    | none => none
    | some f =>
      if ipr.1.all Char.isDigit && !(ipr.1.isEmpty && f.isEmpty) then
        let digits : Int := m * (natOfDigits (ipr.1 ++ f) : Int)
        some (if 0 ≤ e then mkRat (digits * (10 : Int) ^ e.toNat) ((10 : Nat) ^ f.length)
              else mkRat digits ((10 : Nat) ^ f.length * (10 : Nat) ^ (-e).toNat))
      else none

/-! ## Table Locator (read_excel_robust)

A worksheet read with header=None is modelled as a grid: a list of rows,
each a list of cells, where a cell is an optional string.  A missing cell
(`none`) models a NaN entry of the pandas data frame; pandas pads short
rows with NaN up to the frame width, which is the maximum row length.
Values of other scalar types are modelled by their str form, which is what
every use site of the code applies to them. -/

/-- One cell of a worksheet grid: none models a NaN entry. -/
abbrev Cell := Option String

/-- A worksheet grid as read with header=None. -/
abbrev Grid := List (List Cell)

/-- A workbook: none models a file the Excel library fails to open
(the outer try of read_excel_robust); each sheet carries its name and
an optional grid, none modelling a sheet whose read raises (the inner
try, which skips that sheet). -/
abbrev Workbook := Option (List (String × Option Grid))

/-- Models row.astype(str) on one cell: a NaN entry prints as nan. -/
def cellStr (c : Cell) : String :=
  c.getD "nan"

/-- Width of the pandas data frame for a sheet: the maximum row length. -/
def numCols (grid : Grid) : Nat :=
  grid.foldr (fun row m => max row.length m) 0

/-- Pads a row with NaN cells up to the frame width, as pandas does. -/
def padRow (n : Nat) (row : List Cell) : List Cell :=
  row ++ List.replicate (n - row.length) none

/-- Models the header test of the scan loop: some cell of the row, in str
form, contains the marker phrase for the waste-category column. -/
def rowHasMarker (row : List Cell) : Bool :=
  row.any (fun c => substrB "廃棄物の種類" (cellStr c))
    || row.any (fun c => substrB "産業廃棄物の種類" (cellStr c))

/-- Models the cell cleanup applied before column classification:
newlines and spaces are removed from the str form of the cell. -/
def cleanVal (c : Cell) : String :=
  removeChar ' ' (removeChar '\n' (cellStr c))

/-- One step of the column-classification loop over the header row: a cell
containing 種類 records the category column, otherwise a cell containing
全処理委託量 or 委託量 records the amount column; later matches overwrite
earlier ones, as reassignment in the Python dict does. -/
def colMapAux : Nat → Option Nat × Option Nat → List Cell → Option Nat × Option Nat
  | _, m, [] => m
  | i, m, c :: rest =>
    let val := cleanVal c
    if substrB "種類" val then colMapAux (i + 1) (some i, m.2) rest
    else if substrB "全処理委託量" val || substrB "委託量" val then
      colMapAux (i + 1) (m.1, some i) rest
    else colMapAux (i + 1) m rest

/-- Column classification of the header row: the pair of the category
column index and the amount column index, when found. -/
def colMapping (row : List Cell) : Option Nat × Option Nat :=
  colMapAux 0 (none, none) row

/-- Models the header scan: the index of the first row whose padded str
form contains the marker phrase; the loop breaks at the first match. -/
def findHeaderRow (ncols : Nat) : Grid → Option Nat
  | [] => none
  | row :: rest =>
    if rowHasMarker (padRow ncols row) then some 0
    else (findHeaderRow ncols rest).map (· + 1)

/-- The record shape emitted by the extraction logic.  Field names follow
the Japanese dict keys of the source: submitDate 提出日, fiscalYear 対象年度,
docType 文書種類, companyName 排出事業者名, businessType 事業の種類,
siteName 事業場名, address 住所, municipality 自治体名, wasteType
廃棄物の種類, amountTon ⑩全処理委託量_ton, remark 備考, fileName ファイル名
(absent until the dispatcher stamps it).  The amount is represented
exactly as a rational number. -/
structure ExtractedRecord where
  submitDate : String
  fiscalYear : String
  docType : String
  companyName : String
  businessType : String
  siteName : String
  address : String
  municipality : String
  wasteType : String
  amountTon : ℚ
  remark : String
  fileName : Option String
deriving DecidableEq

/-- The amount-cell parse of the data loop: commas removed, whitespace
stripped, then Python float conversion. -/
def parseAmount (s : String) : Option ℚ :=
  pyFloat (pyStrip (removeChar ',' s))

/-- One iteration of the data-row loop of read_excel_robust: the bounds
guard against the frame width, the NaN checks on both cells, the float
conversion of the amount (a failure skips the row), and the junk-row
filter on the stripped category text. -/
def extractRow (sheetName : String) (ncols kc ac : Nat) (row : List Cell) :
    Option ExtractedRecord :=
  if ncols ≤ kc ∨ ncols ≤ ac then none
  else
    match (padRow ncols row).getD kc none, (padRow ncols row).getD ac none with
    | some kv, some av =>
      match parseAmount av with
      | none => none
      | some amt =>
        let waste := pyStrip kv
        if substrB "合計" waste = true ∨ waste = "" ∨ waste = "nan" then none
        else some ⟨"", "", "報告書", "", "", "", "", "", waste, amt,
                    "Sheet: " ++ sheetName, none⟩
    | _, _ => none

/-- Appends an optional element at the back, as the conditional append
of the harvest loop does. -/
def pushOpt {β : Type} (acc : List β) (r? : Option β) : List β :=
  match r? with
  | some b => acc ++ [b]
  | none => acc

/-- Records harvested from one worksheet: the header scan, the column
classification of the matched row, and the append loop over the rows
strictly below the header. -/
def sheetRecords (sheetName : String) (grid : Grid) : List ExtractedRecord :=
  let ncols := numCols grid
  match findHeaderRow ncols grid with
  | none => []
  | some r =>
    match colMapping (padRow ncols (grid.getD r [])) with
    | (some kc, some ac) =>
      (grid.drop (r + 1)).foldl
        (fun acc row => pushOpt acc (extractRow sheetName ncols kc ac row)) []
    | _ => []

/-- Contribution of one sheet to the overall result: a sheet whose read
raised is skipped. -/
def sheetContribution (s : String × Option Grid) : List ExtractedRecord :=
  match s.2 with
  | none => []
  | some grid => sheetRecords s.1 grid

/-- Models read_excel_robust: a file the Excel library cannot open yields
no records; otherwise the per-sheet harvests are appended in sheet order. -/
def read_excel_robust (wb : Workbook) : List ExtractedRecord :=
  match wb with
  | none => []
  | some sheets => sheets.foldl (fun acc s => acc ++ sheetContribution s) []

/-! ## Link Collector (get_file_links)

The HTTP library and the HTML parser are external collaborators.  A page
fetch is modelled as an optional response (none models a network failure,
a raised exception); the parsed document is modelled by its list of anchor
elements, each carrying an optional href attribute.  The URL functions of
the standard library are modelled for the reference shapes the program
meets: absolute http and https URLs, protocol-relative, root-relative and
plain relative references; dot-segment normalization and the non-UTF-8
corners of percent decoding are outside the model. -/

/-- A fetched and parsed page: the HTTP status and the anchor elements,
each with an optional href attribute. -/
structure FetchedPage where
  status : Nat
  anchors : List (Option String)
deriving DecidableEq

/-- One collected link: a filename and the resolved URL. -/
structure SourceLink where
  filename : String
  url : String
deriving DecidableEq

/-- Splits a character list at the first occurrence of the separator. -/
def splitOnceAux (sep : List Char) : List Char → Option (List Char × List Char)
  | [] => none
  | c :: rest =>
    if sep.isPrefixOf (c :: rest) then some ([], (c :: rest).drop sep.length)
    else (splitOnceAux sep rest).map (fun p => (c :: p.1, p.2))

/-- Splits a URL into its scheme and the part after the scheme separator. -/
def schemeSplit (url : String) : Option (String × String) :=
  (splitOnceAux "://".data url.data).map (fun p => (⟨p.1⟩, ⟨p.2⟩))

/-- The authority part of what follows the scheme separator. -/
def hostPart (rest : String) : String :=
  ⟨rest.data.takeWhile (fun c => !(c == '/' || c == '?' || c == '#'))⟩

/-- The scheme and authority prefix of an absolute URL. -/
def schemeHost (url : String) : String :=
  match schemeSplit url with
  | some p => p.1 ++ "://" ++ hostPart p.2
  | none => ""

/-- Models the path component returned by urlparse: what follows the
authority, up to a query or fragment delimiter. -/
def urlPath (url : String) : String :=
  match schemeSplit url with
  | some p =>
    ⟨((p.2.data.drop (hostPart p.2).length).takeWhile (fun c => !(c == '?' || c == '#')))⟩
  | none => ⟨url.data.takeWhile (fun c => !(c == '?' || c == '#'))⟩

/-- The directory prefix of a path: everything up to and including the
last slash, empty when the path has no slash. -/
def dirname (p : String) : String :=
  ⟨(p.data.reverse.dropWhile (fun c => !(c == '/'))).reverse⟩

/-- The last path segment: everything after the last slash. -/
def pathBasename (p : String) : String :=
  ⟨(p.data.reverse.takeWhile (fun c => !(c == '/'))).reverse⟩

/-- Models urljoin for the reference shapes the collector meets. -/
def urljoin (base href : String) : String :=
  if startsWithB "http://" href || startsWithB "https://" href then href
  else if startsWithB "//" href then
    (match schemeSplit base with
     | some p => p.1 ++ ":" ++ href
     | none => href)
  else if startsWithB "/" href then schemeHost base ++ href
  else
    let d := dirname (urlPath base)
    schemeHost base ++ (if d = "" then "/" else d) ++ href

/-- Hexadecimal value of one character, when it is a hex digit. -/
def hexVal (c : Char) : Option Nat :=
  if c.isDigit then some (c.toNat - 48)
  else if 'a' ≤ c ∧ c ≤ 'f' then some (c.toNat - 87)
  else if 'A' ≤ c ∧ c ≤ 'F' then some (c.toNat - 55)
  else none

/-- Percent decoding on characters, the byte-as-codepoint model of the
URL unquote function; a malformed escape is kept verbatim. -/
def unquoteAux : List Char → List Char
  | '%' :: a :: b :: rest =>
    match hexVal a, hexVal b with
    | some x, some y => Char.ofNat (16 * x + y) :: unquoteAux rest
    | _, _ => '%' :: unquoteAux (a :: b :: rest)
  | c :: rest => c :: unquoteAux rest
  | [] => []

/-- Models the URL unquote applied to the derived filename. -/
def unquote (s : String) : String :=
  ⟨unquoteAux s.data⟩

/-- The body of the anchor loop of get_file_links: an href whose lowered
form ends in .pdf, .xlsx or .xls is resolved against the page URL, the
filename is the decoded last path segment, and the keyword filter keeps
the entry when the keyword is empty or occurs in the filename. -/
def linkFromHref (targetUrl keyword href : String) : Option SourceLink :=
  let lower := asciiLower href
  if endsWithB ".pdf" lower || endsWithB ".xlsx" lower || endsWithB ".xls" lower then
    let full := urljoin targetUrl href
    let filename := unquote (pathBasename (urlPath full))
    if keyword = "" ∨ substrB keyword filename = true then some ⟨filename, full⟩
    else none
  else none

/-- Models get_file_links: a network failure or an error status raised by
raise_for_status yields the empty list; otherwise the anchors with an
href are mapped through the collection rule and the result is
de-duplicated as the Python set conversion does. -/
def get_file_links (page : Option FetchedPage) (targetUrl keyword : String) :
    List SourceLink :=
  match page with
  | none => []
  | some p =>
    if 400 ≤ p.status ∧ p.status < 600 then []
    else (p.anchors.filterMap (fun h => h.bind (linkFromHref targetUrl keyword))).dedup

/-! ## Batch/Resume Crawl Loop

A file download is modelled by an oracle from URLs to optional HTTP
responses: none models a raised request exception (the only failure the
code reacts to), some response models any completed request, whatever its
status code. -/

/-- An HTTP response to a file download: status code and body. -/
structure HttpResponse where
  status : Nat
  body : String
deriving DecidableEq

/-- The unprocessed links: the full link list minus the processed URLs,
as recomputed by the loop after every batch. -/
def crawlUnprocessed (links : List SourceLink) (processed : List String) :
    List SourceLink :=
  links.filter (fun l => !(processed.contains l.url))

/-- Models one iteration of the download loop: the link is fetched; when
the request completes, the body is saved under the filename, the file is
queued for extraction, and the URL is appended to the processed set; a
raised request exception leaves both untouched.  The first component of
the accumulator is the queue of saved files, the second the processed
URL list. -/
def downloadStep (fetch : String → Option HttpResponse)
    (acc : List (String × String) × List String) (l : SourceLink) :
    List (String × String) × List String :=
  match fetch l.url with
  | some res => (acc.1 ++ [(l.filename, res.body)], acc.2 ++ [l.url])
  | none => acc

/-- Models the download phase over one batch, folding the per-link step
over the batch from an empty file queue and the current processed set. -/
def downloadPhase (fetch : String → Option HttpResponse) (batch : List SourceLink)
    (processed : List String) : List (String × String) × List String :=
  batch.foldl (downloadStep fetch) ([], processed)

/-- Models the while loop of the automatic crawl: while unprocessed links
remain, take a batch of at most the batch size, run the download phase,
and recompute the remaining work; the fuel counts the iterations the
session executes. -/
def crawlLoop (fetch : String → Option HttpResponse) (links : List SourceLink)
    (bs : Nat) : Nat → List String → List String
  | 0, p => p
  | fuel + 1, p =>
    let rem := crawlUnprocessed links p
    if rem = [] then p
    else crawlLoop fetch links bs fuel (downloadPhase fetch (rem.take bs) p).2

/-! ## Extraction Dispatcher (extract_data_with_ai)

The remote model is an external collaborator, modelled by oracles: one for
the spreadsheet rescue path and one for the PDF path.  Their outputs are
records already containing the extracted fields; the dispatcher stamps the
filename on them, as the code does on the parsed JSON items. -/

/-- Models os.path.splitext composed with str.lower: the extension starts
at the last dot, provided some earlier character of the name is not a
dot; otherwise the extension is empty. -/
def lastDotSplit : List Char → Option (List Char × List Char)
  | [] => none
  | c :: rest =>
    match lastDotSplit rest with
    | some p => some (c :: p.1, p.2)
    | none => if c = '.' then some ([], rest) else none

/-- The lowered filename extension used by the dispatcher to branch. -/
def fileExt (filename : String) : String :=
  match lastDotSplit filename.data with
  | none => ""
  | some p =>
    if p.1.any (fun c => !(c == '.')) then asciiLower ⟨'.' :: p.2⟩ else ""

/-- The stamping applied to each record of a successful spreadsheet
parse: the source filename is set, and the company-name field is set to
the filename when its present value is empty. -/
def stampExcelRecord (filename : String) (r : ExtractedRecord) : ExtractedRecord :=
  { r with
    fileName := some filename
    companyName := if r.companyName = "" then filename else r.companyName }

/-- Models extract_data_with_ai: a spreadsheet extension runs the table
locator and, when it yields at least one record, returns the stamped
records without consulting the remote oracle; a yield of zero records
falls back to the spreadsheet rescue oracle; a pdf extension consults the
PDF oracle; any other extension yields no records.  Oracle outputs are
stamped with the filename as the code stamps the parsed JSON items. -/
def extract_data_with_ai (aiExcel : Workbook → String → List ExtractedRecord)
    (aiPdf : String → List ExtractedRecord) (wb : Workbook) (filename : String) :
    List ExtractedRecord :=
  let ext := fileExt filename
  if ext = ".xlsx" ∨ ext = ".xls" then
    let dataList := read_excel_robust wb
    if 0 < dataList.length then dataList.map (stampExcelRecord filename)
    else (aiExcel wb filename).map (fun r => { r with fileName := some filename })
  else if ext = ".pdf" then
    (aiPdf filename).map (fun r => { r with fileName := some filename })
  else []

/-! ## Audit Reconciler -/

/-- Modelled from the spec: the Audit Reconciler of section 4.6 has no
implementation under src, so its contract is taken from the words of the
spec.  The count of accumulated records whose filename field equals the
given discovered filename. -/
def auditMatchCount (recordNames : List String) (f : String) : Nat :=
  (recordNames.filter (fun r => r = f)).length

/-- Modelled from the spec: the discovered filenames classified as
matched, those with at least one record sharing the filename. -/
def auditMatched (discovered recordNames : List String) : List String :=
  discovered.filter (fun f => 0 < auditMatchCount recordNames f)

/-- Modelled from the spec: the discovered filenames classified as
unmatched, those with zero matching records. -/
def auditUnmatched (discovered recordNames : List String) : List String :=
  discovered.filter (fun f => auditMatchCount recordNames f = 0)

/-! ## Claim-side row rules for the Table Locator

These two definitions transcribe the per-row harvest rule from the words
of the specification, to be compared with the code.  They carry no frame
padding and no width guard; cells are read with a NaN default. -/

/-- The row rule as the spec states it: skip when either cell is missing,
when the amount fails the float conversion, or when the trimmed category
text is empty or equals the literal token 合計. -/
def claimRowAsWritten (sheetName : String) (kc ac : Nat) (row : List Cell) :
    Option ExtractedRecord :=
  match row.getD kc none, row.getD ac none with
  | some kv, some av =>
    match parseAmount av with
    | none => none
    | some amt =>
      let waste := pyStrip kv
      if waste = "" ∨ waste = "合計" then none
      else some ⟨"", "", "報告書", "", "", "", "", "", waste, amt,
                  "Sheet: " ++ sheetName, none⟩
  | _, _ => none

/-- The row rule amended to what the code checks: the category is skipped
when, after trimming, it is empty, equals the literal string nan, or
contains 合計 anywhere (containment, not equality). -/
def claimRowAmended (sheetName : String) (kc ac : Nat) (row : List Cell) :
    Option ExtractedRecord :=
  match row.getD kc none, row.getD ac none with
  | some kv, some av =>
    match parseAmount av with
    | none => none
    | some amt =>
      let waste := pyStrip kv
      if waste = "" ∨ waste = "nan" ∨ substrB "合計" waste = true then none
      else some ⟨"", "", "報告書", "", "", "", "", "", waste, amt,
                  "Sheet: " ++ sheetName, none⟩
  | _, _ => none

/-! ## Concrete inputs used by witnesses and counterexamples -/

/-- A sheet whose data row has a category that contains 合計 without
being equal to it: the code drops it, the claim keeps it. -/
def gridC1cex : Grid :=
  [[some "廃棄物の種類", some "全処理委託量"],
   [some "焼却合計", some "10"]]

/-- The counterexample workbook for the category-skip rule. -/
def wbC1cex : Workbook :=
  some [("S", some gridC1cex)]

/-- A regular worksheet used to instantiate the amended row theorem. -/
def gridC1w : Grid :=
  [[some "廃棄物の種類", some "⑩全処理委託量"],
   [some "がれき類", some "1,299.5"],
   [some "合計", some "5"]]

/-- Concrete scenario 1 with the data rows aligned under the header
columns: category in the column labelled 廃棄物の種類, amount in the
column labelled ⑩全処理委託量. -/
def wbC7 : Workbook :=
  some [("S1", some [[none], [none],
    [some "", some "廃棄物の種類", some "⑩全処理委託量"],
    [some "", some "がれき類", some "100.5"],
    [some "", some "合計", some "100.5"]])]

/-- Concrete scenario 1 with the data rows transcribed literally as
two-cell rows starting at column zero. -/
def wbC7lit : Workbook :=
  some [("S1", some [[none], [none],
    [some "", some "廃棄物の種類", some "⑩全処理委託量"],
    [some "がれき類", some "100.5"],
    [some "合計", some "100.5"]])]

/-- A workbook yielding one locator record, for the dispatcher witness. -/
def wbC4w : Workbook :=
  some [("S", some [[some "廃棄物の種類", some "委託量"],
                    [some "木くず", some "2"]])]

/-- A spreadsheet rescue oracle returning nothing. -/
def aiExcelZero : Workbook → String → List ExtractedRecord := fun _ _ => []

/-- A PDF oracle returning nothing. -/
def aiPdfZero : String → List ExtractedRecord := fun _ => []

/-- A download oracle for which every request completes. -/
def fetchAll : String → Option HttpResponse := fun _ => some ⟨200, "B"⟩

/-- Two links for the crawl loop witness. -/
def linksW : List SourceLink := [⟨"a", "u1"⟩, ⟨"b", "u2"⟩]

/-- A download oracle that completes with a 404 response on one URL and
raises on every other. -/
def fetch10 : String → Option HttpResponse :=
  fun u => if u = "u404" then some ⟨404, "Body"⟩ else none

/-- The single-link batch for the status-blindness witness. -/
def batch10 : List SourceLink := [⟨"f.pdf", "u404"⟩]

/-- A discovered filename set for the reconciler witness. -/
def discW : List String := ["a.pdf", "b.pdf"]

/-- Accumulated record filenames for the reconciler witness. -/
def recsW : List String := ["a.pdf", "a.pdf"]

/-- The page of concrete scenario 3. -/
def pageC5 : FetchedPage := ⟨200, [some "/x/06report.pdf"]⟩

/-- The page of concrete scenario 3 with an error status. -/
def pageC5err : FetchedPage := ⟨404, [some "/x/06report.pdf"]⟩

/-- A grid with no header row. -/
def gridNoHeader : Grid := [[some "hello"], [some "1"]]

/-- A grid whose header row has a category column but no amount column. -/
def gridNoAmt : Grid := [[some "廃棄物の種類"], [some "がれき類"]]

/-! ## Helper lemmas -/

lemma getD_replicate_self {α : Type} (a : α) (k m : Nat) :
    (List.replicate k a).getD m a = a := by
  induction k generalizing m with
  | zero => simp [List.getD]
  | succ n ih =>
    cases m with
    | zero => simp [List.replicate]
    | succ m0 =>
      simp only [List.replicate, List.getD_cons_succ]
      exact ih m0

lemma getD_padRow (n j : Nat) (row : List Cell) :
    (padRow n row).getD j none = row.getD j none := by
  rw [List.getD_eq_getElem?_getD, List.getD_eq_getElem?_getD, padRow,
      List.getElem?_append]
  by_cases h : j < row.length
  · rw [if_pos h]
  · rw [if_neg h, List.getElem?_replicate, List.getElem?_eq_none (by omega)]
    by_cases h2 : j - row.length < n - row.length
    · simp [h2]
    · simp [h2]

lemma numCols_ge (grid : Grid) (row : List Cell) (h : row ∈ grid) :
    row.length ≤ numCols grid := by
  induction grid with
  | nil => cases h
  | cons g rest ih =>
    rcases List.mem_cons.mp h with h1 | h2
    · subst h1; exact le_max_left _ _
    · exact le_trans (ih h2) (le_max_right _ _)

lemma padRow_length (n : Nat) (row : List Cell) (h : row.length ≤ n) :
    (padRow n row).length = n := by
  simp [padRow]
  omega

lemma colMapAux_bounds (row : List Cell) :
    ∀ (i : Nat) (m : Option Nat × Option Nat),
      (∀ k, m.1 = some k → k < i) → (∀ k, m.2 = some k → k < i) →
      (∀ k, (colMapAux i m row).1 = some k → k < i + row.length) ∧
      (∀ k, (colMapAux i m row).2 = some k → k < i + row.length) := by
  induction row with
  | nil =>
    intro i m h1 h2
    constructor
    · intro k hk
      have := h1 k hk
      simp only [List.length_nil]
      omega
    · intro k hk
      have := h2 k hk
      simp only [List.length_nil]
      omega
  | cons c rest ih =>
    intro i m h1 h2
    have hlen : i + (c :: rest).length = (i + 1) + rest.length := by
      simp [List.length_cons]; omega
    rw [colMapAux]
    split
    · rw [hlen]
      exact ih (i + 1) (some i, m.2)
        (by intro k hk; simp at hk; omega)
        (by intro k hk; have := h2 k hk; omega)
    · split
      · rw [hlen]
        exact ih (i + 1) (m.1, some i)
          (by intro k hk; have := h1 k hk; omega)
          (by intro k hk; simp at hk; omega)
      · rw [hlen]
        exact ih (i + 1) m
          (by intro k hk; have := h1 k hk; omega)
          (by intro k hk; have := h2 k hk; omega)

lemma colMapping_bounds (row : List Cell) (kc ac : Nat)
    (h : colMapping row = (some kc, some ac)) :
    kc < row.length ∧ ac < row.length := by
  have hb := colMapAux_bounds row 0 (none, none)
    (by intro k hk; cases hk) (by intro k hk; cases hk)
  rw [colMapping] at h
  constructor
  · have := hb.1 kc (by rw [h])
    omega
  · have := hb.2 ac (by rw [h])
    omega

lemma findHeaderRow_eq_some_iff (ncols : Nat) (grid : Grid) (r : Nat) :
    findHeaderRow ncols grid = some r ↔
      r < grid.length ∧ rowHasMarker (padRow ncols (grid.getD r [])) = true ∧
        ∀ j, j < r → rowHasMarker (padRow ncols (grid.getD j [])) = false := by
  induction grid generalizing r with
  | nil => simp [findHeaderRow]
  | cons row rest ih =>
    rw [findHeaderRow]
    by_cases h : rowHasMarker (padRow ncols row) = true
    · rw [if_pos h]
      constructor
      · intro hr
        have : r = 0 := by
          have := Option.some.inj hr; omega
        subst this
        refine ⟨by simp, by simpa using h, by omega⟩
      · rintro ⟨_, _, hmin⟩
        cases r with
        | zero => rfl
        | succ r0 =>
          exfalso
          have := hmin 0 (by omega)
          simp at this
          rw [this] at h
          cases h
    · rw [if_neg h]
      rw [Bool.not_eq_true] at h
      constructor
      · intro hr
        rcases Option.map_eq_some'.mp hr with ⟨r0, hr0, hr1⟩
        subst hr1
        rcases (ih r0).mp hr0 with ⟨hlt, hmark, hmin⟩
        refine ⟨by simpa using by omega, by simpa using hmark, ?_⟩
        intro j hj
        cases j with
        | zero => simpa using h
        | succ j0 => simpa using hmin j0 (by omega)
      · rintro ⟨hlt, hmark, hmin⟩
        cases r with
        | zero =>
          exfalso
          simp at hmark
          rw [hmark] at h
          cases h
        | succ r0 =>
          have : findHeaderRow ncols rest = some r0 := by
            refine (ih r0).mpr ⟨by simp at hlt; omega, by simpa using hmark, ?_⟩
            intro j hj
            simpa using hmin (j + 1) (by omega)
          rw [this]
          rfl

lemma pushOpt_none {β : Type} (acc : List β) : pushOpt acc none = acc := rfl

lemma pushOpt_some {β : Type} (acc : List β) (b : β) :
    pushOpt acc (some b) = acc ++ [b] := rfl

lemma foldl_push_eq_filterMap {α β : Type} (f : α → Option β) (l : List α) :
    ∀ acc : List β,
      l.foldl (fun a x => pushOpt a (f x)) acc = acc ++ l.filterMap f := by
  induction l with
  | nil => intro acc; simp
  | cons x rest ih =>
    intro acc
    simp only [List.foldl_cons, List.filterMap_cons]
    cases hx : f x with
    | none =>
      rw [pushOpt_none]
      exact ih acc
    | some b =>
      rw [pushOpt_some, ih (acc ++ [b]), List.append_assoc,
          List.singleton_append]

lemma foldl_append_eq_flatMap {α β : Type} (g : α → List β) (l : List α) :
    ∀ acc : List β,
      l.foldl (fun a s => a ++ g s) acc = acc ++ l.flatMap g := by
  induction l with
  | nil => intro acc; simp
  | cons s rest ih =>
    intro acc
    rw [List.foldl_cons, List.flatMap_cons]
    simp [ih (acc ++ g s)]

lemma downloadFold_snd_mem (fetch : String → Option HttpResponse)
    (batch : List SourceLink) :
    ∀ (acc : List (String × String) × List String) (u : String),
      u ∈ (batch.foldl (downloadStep fetch) acc).2 ↔
        u ∈ acc.2 ∨ ((fetch u).isSome = true ∧ ∃ l, l ∈ batch ∧ l.url = u) := by
  induction batch with
  | nil => intro acc u; simp
  | cons b rest ih =>
    intro acc u
    rw [List.foldl_cons]
    rw [ih (downloadStep fetch acc b) u]
    cases hb : fetch b.url with
    | none =>
      constructor
      · rintro (hmem | hrest)
        · left; simpa [downloadStep, hb] using hmem
        · right
          rcases hrest with ⟨hs, l, hl, hu⟩
          exact ⟨hs, l, List.mem_cons_of_mem _ hl, hu⟩
      · rintro (hmem | ⟨hs, l, hl, hu⟩)
        · left; simpa [downloadStep, hb] using hmem
        · rcases List.mem_cons.mp hl with h1 | h2
          · exfalso
            subst h1
            rw [hu] at hb
            rw [hb] at hs
            cases hs
          · exact Or.inr ⟨hs, l, h2, hu⟩
    | some res =>
      have hstep : (downloadStep fetch acc b).2 = acc.2 ++ [b.url] := by
        simp [downloadStep, hb]
      rw [hstep]
      constructor
      · rintro (hmem | hrest)
        · rcases List.mem_append.mp hmem with h1 | h2
          · exact Or.inl h1
          · right
            have hub : u = b.url := by simpa using h2
            subst hub
            exact ⟨by rw [hb]; rfl, b, List.mem_cons_self _ _, rfl⟩
        · rcases hrest with ⟨hs, l, hl, hu⟩
          exact Or.inr ⟨hs, l, List.mem_cons_of_mem _ hl, hu⟩
      · rintro (hmem | ⟨hs, l, hl, hu⟩)
        · exact Or.inl (List.mem_append.mpr (Or.inl hmem))
        · rcases List.mem_cons.mp hl with h1 | h2
          · subst h1
            left
            exact List.mem_append.mpr (Or.inr (by simp [hu]))
          · exact Or.inr ⟨hs, l, h2, hu⟩

lemma downloadFold_fst_grow (fetch : String → Option HttpResponse)
    (batch : List SourceLink) :
    ∀ (acc : List (String × String) × List String) (x : String × String),
      x ∈ acc.1 → x ∈ (batch.foldl (downloadStep fetch) acc).1 := by
  induction batch with
  | nil => intro acc x hx; simpa using hx
  | cons b rest ih =>
    intro acc x hx
    rw [List.foldl_cons]
    refine ih (downloadStep fetch acc b) x ?_
    cases hb : fetch b.url with
    | none => simpa [downloadStep, hb] using hx
    | some res => simp [downloadStep, hb, hx]

lemma downloadFold_fst_mem (fetch : String → Option HttpResponse)
    (batch : List SourceLink) :
    ∀ (acc : List (String × String) × List String) (l : SourceLink)
      (res : HttpResponse), l ∈ batch → fetch l.url = some res →
      (l.filename, res.body) ∈ (batch.foldl (downloadStep fetch) acc).1 := by
  induction batch with
  | nil => intro acc l res hl; cases hl
  | cons b rest ih =>
    intro acc l res hl hres
    rcases List.mem_cons.mp hl with h1 | h2
    · subst h1
      rw [List.foldl_cons]
      refine downloadFold_fst_grow fetch rest _ _ ?_
      simp [downloadStep, hres]
    · rw [List.foldl_cons]
      exact ih _ l res h2 hres

lemma downloadFold_body_congr (f g : String → Option HttpResponse)
    (h : ∀ u, (f u).map (fun r => r.body) = (g u).map (fun r => r.body))
    (batch : List SourceLink) :
    ∀ acc, batch.foldl (downloadStep f) acc = batch.foldl (downloadStep g) acc := by
  induction batch with
  | nil => intro acc; rfl
  | cons b rest ih =>
    intro acc
    rw [List.foldl_cons, List.foldl_cons]
    have hstep : downloadStep f acc b = downloadStep g acc b := by
      have hb := h b.url
      cases hf : f b.url with
      | none =>
        cases hg : g b.url with
        | none => simp [downloadStep, hf, hg]
        | some r2 => rw [hf, hg] at hb; cases hb
      | some r1 =>
        cases hg : g b.url with
        | none => rw [hf, hg] at hb; cases hb
        | some r2 =>
          rw [hf, hg] at hb
          have : r1.body = r2.body := by simpa using hb
          simp [downloadStep, hf, hg, this]
    rw [hstep]
    exact ih (downloadStep g acc b)

lemma getD_mem_of_lt {α : Type} (l : List α) (r : Nat) (d : α) (h : r < l.length) :
    l.getD r d ∈ l := by
  rw [List.getD_eq_getElem?_getD, List.getElem?_eq_getElem h]
  exact List.getElem_mem h

lemma linkFromHref_eq_some_iff (t k href : String) (s : SourceLink) :
    linkFromHref t k href = some s ↔
      (endsWithB ".pdf" (asciiLower href) || endsWithB ".xlsx" (asciiLower href)
        || endsWithB ".xls" (asciiLower href)) = true ∧
      s.url = urljoin t href ∧
      s.filename = unquote (pathBasename (urlPath (urljoin t href))) ∧
      (k = "" ∨ substrB k s.filename = true) := by
  simp only [linkFromHref]
  by_cases hext : (endsWithB ".pdf" (asciiLower href)
      || endsWithB ".xlsx" (asciiLower href)
      || endsWithB ".xls" (asciiLower href)) = true
  · rw [if_pos hext]
    by_cases hkw : k = "" ∨ substrB k (unquote (pathBasename (urlPath (urljoin t href)))) = true
    · rw [if_pos hkw]
      constructor
      · intro h
        injection h with h2
        subst h2
        exact ⟨hext, rfl, rfl, hkw⟩
      · rintro ⟨_, hurl, hfn, _⟩
        cases s with
        | mk fn u =>
          simp only at hurl hfn
          rw [hurl, hfn]
    · rw [if_neg hkw]
      constructor
      · intro h
        cases h
      · rintro ⟨_, _, hfn, hk⟩
        exfalso
        apply hkw
        rw [hfn] at hk
        exact hk
  · rw [if_neg hext]
    constructor
    · intro h
      cases h
    · rintro ⟨hc, _⟩
      exact absurd hc hext

lemma crawlLoop_sound (fetch : String → Option HttpResponse)
    (links : List SourceLink) (bs : Nat) :
    ∀ (fuel : Nat) (p : List String) (u : String),
      u ∈ crawlLoop fetch links bs fuel p →
        u ∈ p ∨ ((fetch u).isSome = true ∧ ∃ l, l ∈ links ∧ l.url = u) := by
  intro fuel
  induction fuel with
  | zero => intro p u hu; exact Or.inl hu
  | succ n ih =>
    intro p u hu
    rw [crawlLoop] at hu
    by_cases hrem : crawlUnprocessed links p = []
    · rw [if_pos hrem] at hu
      exact Or.inl hu
    · rw [if_neg hrem] at hu
      rcases ih _ u hu with hmem | hdone
      · rcases (downloadFold_snd_mem fetch _ _ u).mp hmem with h1 | ⟨hs, l, hl, hurl⟩
        · exact Or.inl h1
        · refine Or.inr ⟨hs, l, ?_, hurl⟩
          have h2 : l ∈ crawlUnprocessed links p :=
            List.take_subset _ _ hl
          rw [crawlUnprocessed] at h2
          exact List.mem_of_mem_filter h2
      · exact Or.inr hdone

/-! ## Claim theorems -/

/-- C1 counterexample: the claim states that a data row is skipped only
when its trimmed category text is empty or equals the literal token 合計,
so on a sheet whose single data row has category 焼却合計 and amount 10
exactly one record must be emitted; the row rule transcribed from the
claim indeed emits that record, but the code emits nothing, because it
skips every category containing 合計. -/
theorem C1_counterexample :
    findHeaderRow (numCols gridC1cex) gridC1cex = some 0 ∧
    colMapping (padRow (numCols gridC1cex) (gridC1cex.getD 0 [])) = (some 0, some 1) ∧
    (gridC1cex.drop 1).filterMap (claimRowAsWritten "S" 0 1) =
      [⟨"", "", "報告書", "", "", "", "", "", "焼却合計", mkRat 10 1,
        "Sheet: S", none⟩] ∧
    read_excel_robust wbC1cex = [] := by
  refine ⟨by decide, by decide, by decide, by decide⟩

/-- C1 amended: for every worksheet whose header scan found a row and
whose classification identified both a category and an amount column, the
locator emits exactly one record per row strictly below the header whose
cells are both present and whose amount parses as a float, skipping rows
whose trimmed category text is empty, equals the literal string nan, or
contains the token 合計; each record carries the trimmed category and the
parsed amount. -/
theorem C1_amended_locator_rows (name : String) (grid : Grid) (r kc ac : Nat)
    (h1 : findHeaderRow (numCols grid) grid = some r)
    (h2 : colMapping (padRow (numCols grid) (grid.getD r [])) = (some kc, some ac)) :
    sheetRecords name grid = (grid.drop (r + 1)).filterMap (claimRowAmended name kc ac) := by
  have hr : r < grid.length := ((findHeaderRow_eq_some_iff _ _ _).mp h1).1
  have hmem : grid.getD r [] ∈ grid := getD_mem_of_lt _ _ _ hr
  have hle : (grid.getD r []).length ≤ numCols grid := numCols_ge _ _ hmem
  have hplen : (padRow (numCols grid) (grid.getD r [])).length = numCols grid :=
    padRow_length _ _ hle
  have hb := colMapping_bounds _ _ _ h2
  rw [hplen] at hb
  have hfun : extractRow name (numCols grid) kc ac = claimRowAmended name kc ac := by
    funext row
    simp only [extractRow, claimRowAmended]
    rw [if_neg (by omega)]
    rw [getD_padRow, getD_padRow]
    cases row.getD kc none with
    | none => rfl
    | some kv =>
      cases row.getD ac none with
      | none => rfl
      | some av =>
        dsimp only
        cases parseAmount av with
        | none => rfl
        | some amt =>
          dsimp only
          exact if_congr (by tauto) rfl rfl
  simp only [sheetRecords, h1, h2]
  rw [hfun]
  rw [foldl_push_eq_filterMap (claimRowAmended name kc ac) _ []]
  rw [List.nil_append]

/-- C1 amended witness: the amended row characterization instantiated on
a concrete worksheet with a comma-formatted amount, a kept category row
and a dropped 合計 row. -/
theorem C1_amended_locator_rows_witness :
    sheetRecords "S" gridC1w = (gridC1w.drop 1).filterMap (claimRowAmended "S" 0 1) :=
  C1_amended_locator_rows "S" gridC1w 0 0 1 (by decide) (by decide)

/-- C7 counterexample: with the data rows of concrete scenario 1
transcribed literally as two-cell rows starting at column zero, the
category column is 1 and the amount column is 2, so the amount cell of
every data row is missing and the locator emits zero records, not the one
record the claim asserts. -/
theorem C7_counterexample :
    read_excel_robust wbC7lit = [] ∧ (read_excel_robust wbC7lit).length ≠ 1 := by
  refine ⟨by decide, by decide⟩

/-- C7 amended: on the worksheet of concrete scenario 1 with the data
rows aligned under the header columns, the locator emits exactly one
record, with category がれき類 and amount 100.5 (exactly 201/2). -/
theorem C7_amended_scenario :
    read_excel_robust wbC7 =
      [⟨"", "", "報告書", "", "", "", "", "", "がれき類", mkRat 201 2,
        "Sheet: S1", none⟩] := by
  decide

/-- C8: the amount parse of the table locator, comma stripping followed
by float conversion, maps the cell text 1,299.99 to exactly the rational
129999/100, that is 1299.99. -/
theorem C8_amount_parse :
    parseAmount "1,299.99" = some (mkRat 129999 100) ∧
      (mkRat 129999 100 : ℚ) = 129999 / 100 := by
  refine ⟨by decide, by norm_num [mkRat]⟩

/-- C9: the table locator is a pure function of the workbook contents,
so running it twice on the unchanged workbook yields identical record
sequences. -/
theorem C9_locator_deterministic :
    ∀ wb : Workbook, read_excel_robust wb = read_excel_robust wb :=
  fun _ => rfl

/-- C6: the header scan yields exactly the first row containing the
marker phrase and no later one; a sheet with no header row, or whose
header row lacks the category or the amount column, contributes no
records; and the overall result of the locator is the concatenation of
the per-sheet results over all worksheets. -/
theorem C6_sheet_structure :
    (∀ (ncols : Nat) (grid : Grid) (r : Nat),
        findHeaderRow ncols grid = some r ↔
          r < grid.length ∧ rowHasMarker (padRow ncols (grid.getD r [])) = true ∧
            ∀ j, j < r → rowHasMarker (padRow ncols (grid.getD j [])) = false)
    ∧ (∀ (name : String) (grid : Grid),
        findHeaderRow (numCols grid) grid = none → sheetRecords name grid = [])
    ∧ (∀ (name : String) (grid : Grid) (r : Nat),
        findHeaderRow (numCols grid) grid = some r →
        ((colMapping (padRow (numCols grid) (grid.getD r []))).1 = none ∨
         (colMapping (padRow (numCols grid) (grid.getD r []))).2 = none) →
        sheetRecords name grid = [])
    ∧ (∀ sheets : List (String × Option Grid),
        read_excel_robust (some sheets) = sheets.flatMap sheetContribution) := by
  refine ⟨findHeaderRow_eq_some_iff, ?_, ?_, ?_⟩
  · intro name grid h
    simp [sheetRecords, h]
  · intro name grid r h hcol
    simp only [sheetRecords, h]
    rcases hc : colMapping (padRow (numCols grid) (grid.getD r [])) with ⟨x, y⟩
    rw [hc] at hcol
    cases x with
    | none => rfl
    | some kc =>
      cases y with
      | none => rfl
      | some ac =>
        rcases hcol with h1 | h1 <;> cases h1
  · intro sheets
    simp only [read_excel_robust]
    rw [foldl_append_eq_flatMap sheetContribution sheets [], List.nil_append]

/-- C6 witness: a sheet with no header row and a sheet whose header row
has no amount column both contribute no records. -/
theorem C6_sheet_structure_witness :
    sheetRecords "S" gridNoHeader = [] ∧ sheetRecords "S" gridNoAmt = [] :=
  ⟨C6_sheet_structure.2.1 "S" gridNoHeader (by decide),
   C6_sheet_structure.2.2.1 "S" gridNoAmt 0 (by decide) (by decide)⟩

/-- C2: during the crawl loop a URL enters the processed set exactly when
its link was attempted in a batch and its download completed (or it was
already there); every URL ever in the processed set belongs to a link of
the collection whose download completes; and when the loop has run to
completion, meaning the recomputed remaining-work set is empty, every
download succeeded and the processed set equals the set of URLs of the
links whose download succeeded. -/
theorem C2_crawl_processed_set (fetch : String → Option HttpResponse)
    (links : List SourceLink) (bs fuel : Nat) :
    (∀ (p : List String) (batch : List SourceLink) (u : String),
        u ∈ (downloadPhase fetch batch p).2 ↔
          u ∈ p ∨ ((fetch u).isSome = true ∧ ∃ l, l ∈ batch ∧ l.url = u))
    ∧ (∀ u, u ∈ crawlLoop fetch links bs fuel [] →
        (fetch u).isSome = true ∧ ∃ l, l ∈ links ∧ l.url = u)
    ∧ (crawlUnprocessed links (crawlLoop fetch links bs fuel []) = [] →
        (∀ l, l ∈ links → (fetch l.url).isSome = true) ∧
        (∀ u, u ∈ crawlLoop fetch links bs fuel [] ↔
          ∃ l, l ∈ links ∧ l.url = u ∧ (fetch l.url).isSome = true)) := by
  refine ⟨?_, ?_, ?_⟩
  · intro p batch u
    exact downloadFold_snd_mem fetch batch ([], p) u
  · intro u hu
    rcases crawlLoop_sound fetch links bs fuel [] u hu with h | h
    · cases h
    · exact h
  · intro hdone
    have hmemall : ∀ l, l ∈ links → l.url ∈ crawlLoop fetch links bs fuel [] := by
      intro l hl
      by_contra hn
      have hmemrem : l ∈ crawlUnprocessed links (crawlLoop fetch links bs fuel []) := by
        rw [crawlUnprocessed, List.mem_filter]
        refine ⟨hl, ?_⟩
        have : (crawlLoop fetch links bs fuel []).contains l.url = false := by
          rcases hb : (crawlLoop fetch links bs fuel []).contains l.url with _ | _
          · rfl
          · exact absurd (List.elem_iff.mp hb) hn
        rw [this]
        rfl
      rw [hdone] at hmemrem
      cases hmemrem
    refine ⟨?_, ?_⟩
    · intro l hl
      rcases crawlLoop_sound fetch links bs fuel [] l.url (hmemall l hl) with h | h
      · cases h
      · exact h.1
    · intro u
      constructor
      · intro hu
        rcases crawlLoop_sound fetch links bs fuel [] u hu with h | ⟨hs, l, hl, hurl⟩
        · cases h
        · refine ⟨l, hl, hurl, ?_⟩
          rw [hurl]
          exact hs
      · rintro ⟨l, hl, hurl, _⟩
        rw [← hurl]
        exact hmemall l hl

/-- C2 witness: with a download oracle for which every request completes,
two links and batch size one, three loop iterations empty the remaining
work, all downloads succeeded, and the processed set holds exactly the
two URLs. -/
theorem C2_crawl_processed_set_witness :
    (∀ l, l ∈ linksW → (fetchAll l.url).isSome = true) ∧
    (∀ u, u ∈ crawlLoop fetchAll linksW 1 3 [] ↔
      ∃ l, l ∈ linksW ∧ l.url = u ∧ (fetchAll l.url).isSome = true) :=
  (C2_crawl_processed_set fetchAll linksW 1 3).2.2 (by decide)

/-- C3: the Audit Reconciler classifies a discovered filename as matched
exactly when at least one accumulated record carries that filename, as
unmatched exactly when its matching count is zero, and the matched count
plus the unmatched count equals the size of the discovered set. -/
theorem C3_audit_reconciler (discovered recordNames : List String) :
    (∀ f, f ∈ discovered →
        (0 < auditMatchCount recordNames f ↔ ∃ r, r ∈ recordNames ∧ r = f))
    ∧ (auditMatched discovered recordNames).length
        + (auditUnmatched discovered recordNames).length = discovered.length
    ∧ (∀ f, f ∈ auditMatched discovered recordNames ↔
        f ∈ discovered ∧ 0 < auditMatchCount recordNames f)
    ∧ (∀ f, f ∈ auditUnmatched discovered recordNames ↔
        f ∈ discovered ∧ auditMatchCount recordNames f = 0) := by
  refine ⟨?_, ?_, ?_, ?_⟩
  · intro f _
    rw [auditMatchCount]
    constructor
    · intro hpos
      have hne : recordNames.filter (fun r => r = f) ≠ [] := by
        intro he
        rw [he] at hpos
        simp at hpos
      rcases List.exists_mem_of_ne_nil _ hne with ⟨r, hr⟩
      rcases List.mem_filter.mp hr with ⟨hr1, hr2⟩
      exact ⟨r, hr1, by simpa using hr2⟩
    · rintro ⟨r, hr, rfl⟩
      have : r ∈ recordNames.filter (fun x => x = r) :=
        List.mem_filter.mpr ⟨hr, by simp⟩
      exact List.length_pos.mpr (fun he => by rw [he] at this; cases this)
  · rw [auditMatched, auditUnmatched]
    induction discovered with
    | nil => rfl
    | cons d rest ih =>
      simp only [List.filter_cons, decide_eq_true_eq]
      by_cases hd : auditMatchCount recordNames d = 0
      · rw [if_neg (by omega), if_pos hd]
        simp only [List.length_cons]
        omega
      · rw [if_pos (by omega), if_neg hd]
        simp only [List.length_cons]
        omega
  · intro f
    rw [auditMatched, List.mem_filter]
    simp
  · intro f
    rw [auditUnmatched, List.mem_filter]
    simp

/-- C3 witness: the reconciler on two discovered filenames and two
records naming the first of them. -/
theorem C3_audit_reconciler_witness :
    (0 < auditMatchCount recsW "a.pdf" ↔ ∃ r, r ∈ recsW ∧ r = "a.pdf") ∧
    (auditMatched discW recsW).length + (auditUnmatched discW recsW).length
      = discW.length :=
  ⟨(C3_audit_reconciler discW recsW).1 "a.pdf" (by decide),
   (C3_audit_reconciler discW recsW).2.1⟩

/-- C4: for a file with a spreadsheet extension whose table locator yield
is nonempty, the dispatcher returns exactly the locator records stamped
with the source filename and with the company name synthesized from the
filename when empty, and the result does not depend on the remote
oracles, so the remote AI path is not invoked; for a file whose extension
is neither .pdf nor .xlsx nor .xls the dispatcher yields no records. -/
theorem C4_dispatcher_routing (aiE : Workbook → String → List ExtractedRecord)
    (aiP : String → List ExtractedRecord) (wb : Workbook) (filename : String) :
    ((fileExt filename = ".xlsx" ∨ fileExt filename = ".xls") →
      read_excel_robust wb ≠ [] →
        extract_data_with_ai aiE aiP wb filename
            = (read_excel_robust wb).map (stampExcelRecord filename) ∧
          ∀ (aiE2 : Workbook → String → List ExtractedRecord)
            (aiP2 : String → List ExtractedRecord),
            extract_data_with_ai aiE2 aiP2 wb filename
              = extract_data_with_ai aiE aiP wb filename)
    ∧ (fileExt filename ≠ ".pdf" → fileExt filename ≠ ".xlsx" →
        fileExt filename ≠ ".xls" →
        extract_data_with_ai aiE aiP wb filename = []) := by
  constructor
  · intro hext hne
    have hlen : 0 < (read_excel_robust wb).length := List.length_pos.mpr hne
    constructor
    · simp only [extract_data_with_ai]
      rw [if_pos hext, if_pos hlen]
    · intro aiE2 aiP2
      simp only [extract_data_with_ai]
      rw [if_pos hext, if_pos hext, if_pos hlen, if_pos hlen]
  · intro h1 h2 h3
    simp only [extract_data_with_ai]
    rw [if_neg (by tauto), if_neg h1]

/-- C4 witness: the dispatcher on a one-record workbook named r.xlsx
returns the stamped locator records, and on the same workbook named
r.txt returns nothing. -/
theorem C4_dispatcher_routing_witness :
    extract_data_with_ai aiExcelZero aiPdfZero wbC4w "r.xlsx"
        = (read_excel_robust wbC4w).map (stampExcelRecord "r.xlsx") ∧
      extract_data_with_ai aiExcelZero aiPdfZero wbC4w "r.txt" = [] :=
  ⟨((C4_dispatcher_routing aiExcelZero aiPdfZero wbC4w "r.xlsx").1
      (Or.inl (by decide)) (by decide)).1,
   (C4_dispatcher_routing aiExcelZero aiPdfZero wbC4w "r.txt").2
      (by decide) (by decide) (by decide)⟩

/-- C5: a network failure or an HTTP error status makes the link
collector return the empty list, never a partial one; on success the
result is duplicate-free and holds exactly the links built from the
anchors whose lowered href ends in .pdf, .xlsx or .xls, resolved against
the page URL, named by the decoded last path segment, and passing the
keyword filter; and on the page of concrete scenario 3 with keyword 06
the collector returns exactly the single expected link. -/
theorem C5_link_collector (targetUrl keyword : String) :
    (get_file_links none targetUrl keyword = [])
    ∧ (∀ p : FetchedPage, 400 ≤ p.status → p.status < 600 →
        get_file_links (some p) targetUrl keyword = [])
    ∧ (∀ p : FetchedPage, ¬ (400 ≤ p.status ∧ p.status < 600) →
        (get_file_links (some p) targetUrl keyword).Nodup ∧
        (∀ s : SourceLink, s ∈ get_file_links (some p) targetUrl keyword ↔
          ∃ href, some href ∈ p.anchors ∧
            (endsWithB ".pdf" (asciiLower href) || endsWithB ".xlsx" (asciiLower href)
              || endsWithB ".xls" (asciiLower href)) = true ∧
            s.url = urljoin targetUrl href ∧
            s.filename = unquote (pathBasename (urlPath (urljoin targetUrl href))) ∧
            (keyword = "" ∨ substrB keyword s.filename = true)))
    ∧ get_file_links (some pageC5) "https://ex.test/" "06"
        = [⟨"06report.pdf", "https://ex.test/x/06report.pdf"⟩] := by
  refine ⟨rfl, ?_, ?_, by decide⟩
  · intro p h1 h2
    simp only [get_file_links]
    rw [if_pos ⟨h1, h2⟩]
  · intro p herr
    simp only [get_file_links]
    rw [if_neg herr]
    refine ⟨List.nodup_dedup _, ?_⟩
    intro s
    rw [List.mem_dedup, List.mem_filterMap]
    constructor
    · rintro ⟨a, ha, hfa⟩
      rcases Option.bind_eq_some.mp hfa with ⟨href, ha2, hlink⟩
      subst ha2
      rcases (linkFromHref_eq_some_iff targetUrl keyword href s).mp hlink with
        ⟨hc1, hc2, hc3, hc4⟩
      exact ⟨href, ha, hc1, hc2, hc3, hc4⟩
    · rintro ⟨href, hanc, hc1, hc2, hc3, hc4⟩
      refine ⟨some href, hanc, ?_⟩
      rw [Option.some_bind]
      exact (linkFromHref_eq_some_iff targetUrl keyword href s).mpr ⟨hc1, hc2, hc3, hc4⟩

/-- C5 witness: the same page fetched with a 404 status yields the empty
list rather than the one link the page would otherwise produce. -/
theorem C5_link_collector_witness :
    get_file_links (some pageC5err) "https://ex.test/" "06" = [] :=
  (C5_link_collector "https://ex.test/" "06").2.1 pageC5err (by decide) (by decide)

/-- C10: the crawl download phase treats a download as successful exactly
when the request returns at all: any returned response, whatever its
status code, has its body saved, the file queued for extraction and the
URL added to the processed set; and the phase never inspects the status
code, since two fetch oracles agreeing on response bodies produce
identical results. -/
theorem C10_download_status_blind :
    (∀ (fetch : String → Option HttpResponse) (batch : List SourceLink)
        (processed : List String) (l : SourceLink) (res : HttpResponse),
        l ∈ batch → fetch l.url = some res →
          (l.filename, res.body) ∈ (downloadPhase fetch batch processed).1 ∧
          l.url ∈ (downloadPhase fetch batch processed).2)
    ∧ (∀ (f g : String → Option HttpResponse) (batch : List SourceLink)
        (processed : List String),
        (∀ u, (f u).map (fun r => r.body) = (g u).map (fun r => r.body)) →
          downloadPhase f batch processed = downloadPhase g batch processed) := by
  constructor
  · intro fetch batch processed l res hl hres
    constructor
    · exact downloadFold_fst_mem fetch batch ([], processed) l res hl hres
    · refine (downloadFold_snd_mem fetch batch ([], processed) l.url).mpr ?_
      refine Or.inr ⟨?_, l, hl, rfl⟩
      rw [hres]
      rfl
  · intro f g batch processed h
    exact downloadFold_body_congr f g h batch ([], processed)

/-- C10 witness: a single-link batch whose fetch returns a 404 response
still saves the body, queues the file and marks the URL processed. -/
theorem C10_download_status_blind_witness :
    ("f.pdf", "Body") ∈ (downloadPhase fetch10 batch10 []).1 ∧
    "u404" ∈ (downloadPhase fetch10 batch10 []).2 :=
  C10_download_status_blind.1 fetch10 batch10 [] ⟨"f.pdf", "u404"⟩ ⟨404, "Body"⟩
    (by decide) (by decide)

end PdfDl

